import Mathlib

/-!
Verification development for the CCXT-CryptoAna data-acquisition core.

The definitions below are a shallow embedding of the Python sources:

* `src/main.py`   — provider ranking cache (`load_success_exchanges`,
  `save_success_exchange`, `get_prioritized_exchanges`), gap detection
  (`get_missing_timeframes`), the multi-exchange fetch loop
  (`fetch_ohlcv_from_multiple_exchanges`) and the backfill driver
  (`fetch_and_save_ohlcv_data`).
* `src/ta_service/core.py` — the fallback fetcher `fetch_data`.

Modelling conventions:

* Instants (`datetime`) and durations (`timedelta`) are integers counted in
  minutes; `timedelta(minutes=n) = n`, `timedelta(hours=n) = 60*n`,
  `timedelta(days=n) = 1440*n`.
* A pandas OHLCV row is a `Candle`; the numeric cells are abstracted as
  integers because every property considered here depends only on row
  identity and on the `timestamp` column, never on price arithmetic.
* Network responses are supplied by explicit `world` functions; exceptions
  raised by `ccxt` calls are represented as constructors of an outcome type,
  one per `except` arm of the source.
* The JSON ranking-cache document `{symbol: {timeframe: [exchange, ...]}}`
  is modelled as a total function with default `[]`, which is
  indistinguishable from the defaulting dictionary accesses in the source.
-/

/-- One OHLCV row (`['timestamp','open','high','low','close','volume']`).
`opn` stands for the source's `open` column, which is a reserved word here. -/
structure Candle where
  timestamp : Int
  opn : Int
  high : Int
  low : Int
  close : Int
  volume : Int
deriving DecidableEq, Repr

/-- The two `config.get('data', {}).get(...)` flags consulted by
`get_prioritized_exchanges` and `get_missing_timeframes`; both default to
`True` in the source. -/
structure Config where
  enable_dynamic_sorting : Bool := true
  enable_data_filling : Bool := true
deriving DecidableEq, Repr

/-- The configuration obtained when the `data` section omits both keys,
mirroring the `.get(..., True)` defaults in `src/main.py`. -/
def defaultConfig : Config := {}

/-- `TOP_EXCHANGES` from `src/main.py` lines 23-26. -/
def TOP_EXCHANGES : List String :=
  ["binance", "coinbase", "okx", "bybit", "kucoin",
   "bitfinex", "kraken", "huobi", "gate", "mexc"]

/-- `SUPPORTED_EXCHANGES` from `src/ta_service/core.py` lines 25-35. -/
def SUPPORTED_EXCHANGES : List String :=
  ["binance", "okx", "bybit", "huobi", "gate", "kucoin", "bitget",
   "coinbase", "kraken"]

/-- The in-memory ranking-cache document: `symbol -> timeframe -> list of
exchange ids`, with absent keys reading as `[]` exactly like the guarded
dictionary accesses in the source. -/
def SuccessCache : Type := String → String → List String

/-- The cache document holding no successful exchange for any key. -/
def emptyCache : SuccessCache := fun _ _ => []

/-- Move-to-front step of `save_success_exchange` (`src/main.py` lines
70-72): `if exchange_id in lst: lst.remove(exchange_id)` followed by
`lst.insert(0, exchange_id)`.  Python's `remove` deletes the first
occurrence, as does `List.erase`; when the element is absent `erase` is the
identity, matching the guarded `remove`. -/
def moveToFront (lst : List String) (exchange_id : String) : List String :=
  exchange_id :: lst.erase exchange_id

/-- Document update performed by `save_success_exchange` (`src/main.py`
lines 59-72): promote `exchange_id` to the front of the list stored under
`(symbol, timeframe)`.  The surrounding file read/write is modelled
separately by `save_success_exchange_file`. -/
def save_success_exchange (cache : SuccessCache) (symbol timeframe exchange_id : String) :
    SuccessCache :=
  fun s t =>
    if s = symbol then
      if t = timeframe then moveToFront (cache s t) exchange_id else cache s t
    else cache s t

/-- One iteration of the second loop of `get_prioritized_exchanges`
(`src/main.py` lines 101-103): append the exchange unless already present. -/
def dedupConcat (acc : List String) (e : String) : List String :=
  if e ∈ acc then acc else acc ++ [e]

/-- Merge step of `get_prioritized_exchanges` (`src/main.py` lines 96-103):
first every cached exchange that is a member of the default list, in cached
order, then the remaining default exchanges in default order, skipping
anything already present. -/
def mergeRanked (prioritized top : List String) : List String :=
  top.foldl dedupConcat (prioritized.filter (fun e => decide (e ∈ top)))

/-- `get_prioritized_exchanges` (`src/main.py` lines 81-105).  `top` stands
for the module constant `TOP_EXCHANGES`; theorems about the actual program
instantiate it with `TOP_EXCHANGES`. -/
def get_prioritized_exchanges (cfg : Config) (cache : SuccessCache)
    (symbol timeframe : String) (top : List String) : List String :=
  if cfg.enable_dynamic_sorting = false then top
  else mergeRanked (cache symbol timeframe) top

/-- On-disk states of `cache/success_exchanges.json` distinguished by
`load_success_exchanges`: missing, unreadable/corrupt (any `json.load`
failure), or a readable document. -/
inductive CacheFile where
  | absent
  | corrupt
  | valid (doc : SuccessCache)

/-- `load_success_exchanges` (`src/main.py` lines 49-57): a readable file
yields its document; a missing or corrupt file yields `{}` (the exception
from `json.load` is caught and swallowed). -/
def load_success_exchanges : CacheFile → SuccessCache
  | .absent => emptyCache
  | .corrupt => emptyCache
  | .valid doc => doc

/-- Outcome of the write attempted by `save_success_exchange`
(`src/main.py` lines 75-79): the `open`/`json.dump` pair succeeds, the
`open(..., 'w')` call itself raises (the previous file is untouched), or
`json.dump`/the flush raises after `open(..., 'w')` has already truncated
the file (the file is left truncated or partially written). -/
inductive WriteOutcome where
  | ok
  | openFail
  | dumpFail

/-- File-level `save_success_exchange` (`src/main.py` lines 59-79):
read-modify-write of the whole cache file, with any exception caught,
printed and swallowed.  `open(SUCCESS_EXCHANGES_FILE, 'w')` truncates the
file before `json.dump` writes into it, so a failure during the dump
leaves a truncated or partial file that a later `json.load` cannot parse
— modelled as `.corrupt`; only a failure of the `open` call itself leaves
the previous file intact. -/
def save_success_exchange_file (fs : CacheFile) (w : WriteOutcome)
    (symbol timeframe exchange_id : String) : CacheFile :=
  let doc := load_success_exchanges fs
  let doc' := save_success_exchange doc symbol timeframe exchange_id
  match w with
  | .ok => .valid doc'
  | .openFail => fs
  | .dumpFail => .corrupt

/-- Decimal parse of `timeframe[:-1]`, the `int(...)` call in
`src/main.py` lines 152-156.  The source raises `ValueError` on a
malformed prefix; such inputs are outside this embedding and read as `0`
via `getD` at the call site. -/
def parseDigits (cs : List Char) : Option Nat :=
  if cs.isEmpty then none
  else
    cs.foldl
      (fun acc c =>
        match acc with
        | none => none
        | some n => if c.isDigit then some (10 * n + (c.toNat - 48)) else none)
      (some 0)

/-- Expected candle spacing implied by a timeframe code (`src/main.py`
lines 151-158), in minutes: `'Nm' -> N`, `'Nh' -> 60*N`, `'Nd' -> 1440*N`,
anything else one day.  `timeframe.endswith('m')` for a single-character
suffix is a check on the last character. -/
def intervalOf (timeframe : String) : Int :=
  match timeframe.data.getLast? with
  | some 'm' => ((parseDigits timeframe.data.dropLast).getD 0 : Int)
  | some 'h' => 60 * ((parseDigits timeframe.data.dropLast).getD 0 : Int)
  | some 'd' => 1440 * ((parseDigits timeframe.data.dropLast).getD 0 : Int)
  | _ => 1440

/-- `df.sort_values('timestamp')`: sort rows by the timestamp column.  The
lists this is applied to are deduplicated on `timestamp` wherever the order
of equal keys could matter, so any comparison sort agrees with pandas here. -/
def sortByTs (l : List Candle) : List Candle :=
  l.insertionSort (fun a b => a.timestamp ≤ b.timestamp)

/-- `df['timestamp'].min()` over a nonempty frame (`0` for the empty frame,
which the source never queries). -/
def tsMin : List Candle → Int
  | [] => 0
  | c :: cs => cs.foldl (fun m d => min m d.timestamp) c.timestamp

/-- `df['timestamp'].max()` over a nonempty frame (`0` for the empty frame,
which the source never queries). -/
def tsMax : List Candle → Int
  | [] => 0
  | c :: cs => cs.foldl (fun m d => max m d.timestamp) c.timestamp

/-- Interior-gap walk of `get_missing_timeframes` (`src/main.py` lines
160-168): for each consecutive pair of rows emit
`(current + interval, next)` when `next > (current + interval) + interval`. -/
def interiorGaps (interval : Int) : List Candle → List (Int × Int)
  | c1 :: c2 :: rest =>
    (if c2.timestamp > (c1.timestamp + interval) + interval
      then [(c1.timestamp + interval, c2.timestamp)] else [])
      ++ interiorGaps interval (c2 :: rest)
  | _ => []

/-- `get_missing_timeframes` (`src/main.py` lines 115-174).  `store` is the
result of `load_ohlcv_data` (`none` when no data exists), `now` the value
of `datetime.now()` used when `end_time` is `None`. -/
def get_missing_timeframes (cfg : Config) (store : Option (List Candle))
    (timeframe : String) (start_time : Int) (end_time : Option Int) (now : Int) :
    List (Int × Int) :=
  let end_t := end_time.getD now
  if cfg.enable_data_filling = false then [(start_time, end_t)]
  else
    match store with
    | none => [(start_time, end_t)]
    | some df =>
      if df.length = 0 then [(start_time, end_t)]
      else
        let df := sortByTs df
        let interval := intervalOf timeframe
        let leading := if tsMin df > start_time then [(start_time, tsMin df)] else []
        let trailing :=
          if tsMax df < end_t - interval then [(tsMax df + interval, end_t)] else []
        leading ++ interiorGaps interval df ++ trailing

/-- Worker for `drop_duplicates(subset=['timestamp'])` with pandas'
default `keep='first'`: keep a row iff its timestamp was not seen on an
earlier row; `seen` accumulates the timestamps of kept-or-skipped rows. -/
def dedupAux : List Candle → List Int → List Candle
  | [], _ => []
  | c :: cs, seen =>
    if c.timestamp ∈ seen then dedupAux cs seen
    else c :: dedupAux cs (c.timestamp :: seen)

/-- `combined_df.drop_duplicates(subset=['timestamp'])` (`src/main.py`
line 310): keep the first row of each timestamp, preserving order. -/
def drop_duplicates_ts (l : List Candle) : List Candle :=
  dedupAux l []

/-- Merge step of `fetch_and_save_ohlcv_data` (`src/main.py` lines
308-310): `pd.concat([existing_df, df])`, drop duplicate timestamps
keeping the first-seen row, then sort ascending by timestamp. -/
def mergeSeries (existing df : List Candle) : List Candle :=
  sortByTs (drop_duplicates_ts (existing ++ df))

/-- Behaviour of one exchange inside the loop of
`fetch_ohlcv_from_multiple_exchanges` (`src/main.py` lines 210-247):
either `fetch_ohlcv` returned a row list (possibly empty), or
`exchange.has['fetchOHLCV']` was false, or the `try` body raised and the
broad `except` caught it. -/
inductive ExchResult where
  | rows (ohlcv : List Candle)
  | unsupported
  | raised
deriving DecidableEq, Repr

/-- The loop of `fetch_ohlcv_from_multiple_exchanges` (`src/main.py` lines
210-250) over an already-ranked exchange list.  `world` supplies each
exchange's behaviour.  Returns the exchanges attempted in order, the
ranking cache after the loop (`save_success_exchange` runs only on the
success path, line 238), and `(exchange_id, df)` on success or `none` when
every exchange was exhausted (the source's `return None, None`). -/
def fetchLoop (world : String → ExchResult) (cache : SuccessCache)
    (symbol timeframe : String) :
    List String → List String × SuccessCache × Option (String × List Candle)
  | [] => ([], cache, none)
  | ex :: rest =>
    match world ex with
    | .rows ohlcv =>
      if 0 < ohlcv.length then
        ([ex], save_success_exchange cache symbol timeframe ex, some (ex, ohlcv))
      else
        let r := fetchLoop world cache symbol timeframe rest
        (ex :: r.1, r.2)
    | _ =>
      let r := fetchLoop world cache symbol timeframe rest
      (ex :: r.1, r.2)

/-- `fetch_ohlcv_from_multiple_exchanges` (`src/main.py` lines 205-250):
rank the exchanges, then walk them until one returns nonempty rows. -/
def fetch_ohlcv_from_multiple_exchanges (cfg : Config) (world : String → ExchResult)
    (cache : SuccessCache) (symbol timeframe : String) (top : List String) :
    List String × SuccessCache × Option (String × List Candle) :=
  fetchLoop world cache symbol timeframe
    (get_prioritized_exchanges cfg cache symbol timeframe top)

/-- Behaviour of one exchange inside `fetch_data`
(`src/ta_service/core.py` lines 100-149): the `fetch_ohlcv` call either
returns a row list or raises one of the exceptions distinguished by the
`except` arms. -/
inductive FetchOutcome where
  | ok (rows : List Candle)
  | notAvailable
  | networkError
  | exchangeError
  | otherError
deriving DecidableEq, Repr

/-- Error classification recorded into `last_error` by the `except` arms
of `fetch_data`: `ExchangeNotAvailable`, `NetworkError`, `ExchangeError`,
and the generic `except Exception` arm, which also catches the explicit
`raise` for an empty row list (line 109). -/
inductive ErrKind where
  | notAvailable
  | network
  | exchange
  | unknown
deriving DecidableEq, Repr

/-- The `except` arm that fires for a failing outcome of `fetch_data`'s
`try` body.  `ok rows` reaches an arm only when `rows` is empty, via the
generic `Exception` raised on line 109. -/
def errKindOf : FetchOutcome → ErrKind
  | .ok _ => .unknown
  | .notAvailable => .notAvailable
  | .networkError => .network
  | .exchangeError => .exchange
  | .otherError => .unknown

/-- Does the outcome make `fetch_data`'s loop return?  Requires a
nonempty row list (`src/ta_service/core.py` line 108). -/
def succeedsOutcome : FetchOutcome → Bool
  | .ok rows => !rows.isEmpty
  | _ => false

/-- Value carried by the exception raised when `fetch_data` exhausts every
exchange (`src/ta_service/core.py` lines 151-159): the exchange and error
of the last attempt, and the full `exchange_list` interpolated into the
message (`'已尝试的交易所: ' + ', '.join(exchange_list)`). -/
structure FetchFailure where
  last_exchange_id : Option String
  last_error : Option (String × ErrKind)
  tried : List String
deriving DecidableEq, Repr

/-- Result of `fetch_data`: a successful `(df, exchange_id)` return, the
immediate re-raise of a single attempt's error when `auto_fallback` is
false, or the aggregate exception after exhausting `exchange_list`. -/
inductive FetchDataResult where
  | ok (df : List Candle) (exchange_id : String)
  | fail1 (err : String × ErrKind)
  | failAll (f : FetchFailure)
deriving DecidableEq, Repr

/-- The `for ex_id in exchange_list` loop of `fetch_data`
(`src/ta_service/core.py` lines 100-159), carrying the `last_error` and
`last_exchange_id` accumulators; `exchange_list` is the full list used in
the final error message. -/
def fetchDataLoop (world : String → FetchOutcome) (auto_fallback : Bool)
    (exchange_list : List String) :
    List String → Option (String × ErrKind) → Option String → FetchDataResult
  | [], last_error, last_exchange_id =>
    .failAll ⟨last_exchange_id, last_error, exchange_list⟩
  | ex :: rest, _, _ =>
    match world ex with
    | .ok rows =>
      if rows.isEmpty then
        if auto_fallback then
          fetchDataLoop world auto_fallback exchange_list rest
            (some (ex, .unknown)) (some ex)
        else .fail1 (ex, .unknown)
      else .ok rows ex
    | o =>
      if auto_fallback then
        fetchDataLoop world auto_fallback exchange_list rest
          (some (ex, errKindOf o)) (some ex)
      else .fail1 (ex, errKindOf o)

/-- Construction of `exchange_list` in `fetch_data`
(`src/ta_service/core.py` lines 86-94): a requested exchange goes first,
followed (under `auto_fallback`) by the remaining supported exchanges;
otherwise the default priority list. -/
def buildExchangeList (exchange_id : Option String) (auto_fallback : Bool) : List String :=
  match exchange_id with
  | some ex =>
    if auto_fallback then ex :: SUPPORTED_EXCHANGES.filter (fun e => e ≠ ex)
    else [ex]
  | none => SUPPORTED_EXCHANGES

/-- `fetch_data` (`src/ta_service/core.py` lines 59-159). -/
def fetch_data (world : String → FetchOutcome) (exchange_id : Option String)
    (auto_fallback : Bool) : FetchDataResult :=
  fetchDataLoop world auto_fallback (buildExchangeList exchange_id auto_fallback)
    (buildExchangeList exchange_id auto_fallback) none none

/-- Modelled from the spec: the FailureReport of §4.3 step 3 aggregates
one FetchAttempt (§3) per provider tried, in the order tried; this
definition builds that per-provider attempt list so it can be compared
with what the code's failure value actually carries. -/
def specFailureAttempts (world : String → FetchOutcome) (tried : List String) :
    List (String × ErrKind) :=
  tried.map (fun ex => (ex, errKindOf (world ex)))

/-- Number of rows requested for a missing period (`src/main.py` lines
286-296), before the `min(limit, 1000)` cap: period length divided by the
timeframe's span, plus one.  Instants are minutes, so
`total_seconds()/60` is the difference itself and `/3600` divides by 60. -/
def computeLimit (timeframe : String) (period_start period_end : Int) : Int :=
  match timeframe.data.getLast? with
  | some 'm' =>
    (period_end - period_start) / ((parseDigits timeframe.data.dropLast).getD 0 : Int) + 1
  | some 'h' =>
    (period_end - period_start) / 60 / ((parseDigits timeframe.data.dropLast).getD 0 : Int) + 1
  | some 'd' => (period_end - period_start) / 1440 + 1
  | _ => 1000

/-- Responses of the outside world to one backfill run: `fetch` stands for
the `fetch_ohlcv_from_multiple_exchanges` call for a missing period (the
provider-fallback layer is embedded separately above), `save` for the
`db.save_ohlcv_data` return value. -/
structure FillWorld where
  fetch : Int × Int → Int → Option (String × List Candle)
  save : List Candle → Bool

/-- The `for period_start, period_end in missing_periods` loop of
`fetch_and_save_ohlcv_data` (`src/main.py` lines 283-319).  State:
`existing` is `existing_df`, `store` the persisted series, `success` the
flag.  Returns `(success, store, filled)` where `filled` additionally
records the periods whose fetch returned rows and whose save succeeded —
exactly the iterations that set `success = True` on line 314. -/
def fillLoop (w : FillWorld) (timeframe : String) :
    List (Int × Int) → List Candle → Option (List Candle) → Bool →
    Bool × Option (List Candle) × List (Int × Int)
  | [], _, store, success => (success, store, [])
  | (ps, pe) :: rest, existing, store, success =>
    let limit := min (computeLimit timeframe ps pe) 1000
    match w.fetch (ps, pe) limit with
    | some (_, df) =>
      if 0 < df.length then
        let combined := mergeSeries existing df
        if w.save combined then
          let r := fillLoop w timeframe rest combined (some combined) true
          (r.1, r.2.1, (ps, pe) :: r.2.2)
        else fillLoop w timeframe rest existing store success
      else fillLoop w timeframe rest existing store success
    | none => fillLoop w timeframe rest existing store success

/-- `fetch_and_save_ohlcv_data` (`src/main.py` lines 252-319) for an
explicit window: compute the missing periods, return `True` untouched
when there are none (lines 271-273), otherwise run the fill loop starting
from the loaded series (`None` loads as an empty frame, line 277-278).
The returned triple extends the source's boolean with the persisted
series and the list of filled periods, which the source holds in local
state. -/
def fetch_and_save_ohlcv_data (cfg : Config) (w : FillWorld)
    (store : Option (List Candle)) (timeframe : String)
    (start_time end_time : Int) (now : Int) :
    Bool × Option (List Candle) × List (Int × Int) :=
  let missing := get_missing_timeframes cfg store timeframe start_time (some end_time) now
  if missing.isEmpty then (true, store, [])
  else fillLoop w timeframe missing (store.getD []) store false

/-- Does the outcome make the `fetch_ohlcv_from_multiple_exchanges` loop
return (`src/main.py` line 229)?  Requires a returned, nonempty row list. -/
def succeedsExch : ExchResult → Bool
  | .rows ohlcv => decide (0 < ohlcv.length)
  | _ => false

/-- Pairs of timestamps of consecutive rows, the `df['timestamp'].iloc[i]`,
`df['timestamp'].iloc[i+1]` pairs walked by the interior-gap loop. -/
def consecTs (l : List Candle) : List (Int × Int) :=
  (l.zip l.tail).map (fun p => (p.1.timestamp, p.2.timestamp))

/-- Timestamp column of a frame as a list. -/
def tsOf (l : List Candle) : List Int :=
  l.map (fun c => c.timestamp)

/-- Strictly increasing timestamps: sorted ascending with no duplicate
timestamps, the invariant of a persisted series. -/
def StrictByTs (l : List Candle) : Prop :=
  List.Pairwise (fun a b => a.timestamp < b.timestamp) l

/-- Ordering rows by timestamp is total. -/
instance : IsTotal Candle (fun a b => a.timestamp ≤ b.timestamp) :=
  ⟨fun a b => Int.le_total a.timestamp b.timestamp⟩

/-- Ordering rows by timestamp is transitive. -/
instance : IsTrans Candle (fun a b => a.timestamp ≤ b.timestamp) :=
  ⟨fun _ _ _ h1 h2 => le_trans h1 h2⟩

/-- Timestamps considered seen after the dedup walk has passed over `l`
starting from `seen`; used to split `dedupAux` across an append. -/
def seenAfter (l : List Candle) (seen : List Int) : List Int :=
  l.foldl (fun s c => if c.timestamp ∈ s then s else c.timestamp :: s) seen

/-! ### Lemmas about the ranking registry -/

theorem dedupConcat_of_mem {acc : List String} {e : String} (h : e ∈ acc) :
    dedupConcat acc e = acc := if_pos h

theorem dedupConcat_of_not_mem {acc : List String} {e : String} (h : e ∉ acc) :
    dedupConcat acc e = acc ++ [e] := if_neg h

theorem foldl_dedupConcat_head :
    ∀ (top acc : List String), acc ≠ [] →
      (top.foldl dedupConcat acc).head? = acc.head? := by
  intro top
  induction top with
  | nil => intro acc _; rfl
  | cons e rest ih =>
    intro acc h
    simp only [List.foldl_cons]
    by_cases he : e ∈ acc
    · rw [dedupConcat_of_mem he]; exact ih acc h
    · rw [dedupConcat_of_not_mem he, ih (acc ++ [e]) (by simp)]
      cases acc with
      | nil => exact absurd rfl h
      | cons a t => simp

theorem foldl_dedupConcat_nodup :
    ∀ (top acc : List String), acc.Nodup → (top.foldl dedupConcat acc).Nodup := by
  intro top
  induction top with
  | nil => intro acc h; exact h
  | cons e rest ih =>
    intro acc h
    simp only [List.foldl_cons]
    by_cases he : e ∈ acc
    · rw [dedupConcat_of_mem he]; exact ih acc h
    · rw [dedupConcat_of_not_mem he]
      refine ih (acc ++ [e]) ?_
      simp [List.nodup_append, h, he]

theorem mem_foldl_dedupConcat :
    ∀ (top acc : List String) (x : String),
      x ∈ top.foldl dedupConcat acc → x ∈ acc ∨ x ∈ top := by
  intro top
  induction top with
  | nil => intro acc x h; exact Or.inl h
  | cons e rest ih =>
    intro acc x h
    simp only [List.foldl_cons] at h
    by_cases he : e ∈ acc
    · rw [dedupConcat_of_mem he] at h
      rcases ih acc x h with h' | h'
      · exact Or.inl h'
      · exact Or.inr (List.mem_cons_of_mem _ h')
    · rw [dedupConcat_of_not_mem he] at h
      rcases ih (acc ++ [e]) x h with h' | h'
      · rcases List.mem_append.mp h' with h'' | h''
        · exact Or.inl h''
        · exact Or.inr (by simp [List.mem_singleton.mp h''])
      · exact Or.inr (List.mem_cons_of_mem _ h')

theorem foldl_dedupConcat_move (s : String) :
    ∀ (top acc : List String),
      top.foldl dedupConcat (s :: acc.erase s) = s :: (top.foldl dedupConcat acc).erase s := by
  intro top
  induction top with
  | nil => intro acc; rfl
  | cons e rest ih =>
    intro acc
    simp only [List.foldl_cons]
    by_cases he : e ∈ acc
    · have he2 : e ∈ s :: acc.erase s := by
        by_cases hes : e = s
        · exact hes ▸ List.mem_cons_self _ _
        · exact List.mem_cons_of_mem _ ((List.mem_erase_of_ne hes).mpr he)
      rw [dedupConcat_of_mem he, dedupConcat_of_mem he2]
      exact ih acc
    · by_cases hes : e = s
      · subst hes
        have he2 : e ∈ e :: acc.erase e := List.mem_cons_self _ _
        rw [dedupConcat_of_mem he2, dedupConcat_of_not_mem he]
        have h1 : acc.erase e = acc := List.erase_of_not_mem he
        have h2 : (acc ++ [e]).erase e = acc := by
          rw [List.erase_append_right _ he, List.erase_cons_head, List.append_nil]
        calc rest.foldl dedupConcat (e :: acc.erase e)
            = rest.foldl dedupConcat (e :: (acc ++ [e]).erase e) := by rw [h1, h2]
          _ = e :: (rest.foldl dedupConcat (acc ++ [e])).erase e := ih (acc ++ [e])
      · have he2 : e ∉ s :: acc.erase s := by
          intro h
          rcases List.mem_cons.mp h with h' | h'
          · exact hes h'
          · exact he (List.mem_of_mem_erase h')
        rw [dedupConcat_of_not_mem he, dedupConcat_of_not_mem he2]
        have key : (s :: acc.erase s) ++ [e] = s :: (acc ++ [e]).erase s := by
          by_cases hs : s ∈ acc
          · rw [List.erase_append_left _ hs]; rfl
          · rw [List.erase_append_right _ hs, List.erase_of_not_mem hs,
              List.erase_cons_tail (by simp [hes]), List.erase_nil]
            simp
        rw [key]
        exact ih (acc ++ [e])

theorem foldl_dedupConcat_char :
    ∀ (top acc : List String), top.Nodup →
      top.foldl dedupConcat acc = acc ++ top.filter (fun e => decide (e ∉ acc)) := by
  intro top
  induction top with
  | nil => intro acc _; simp
  | cons e rest ih =>
    intro acc hnd
    have hrest : rest.Nodup := (List.nodup_cons.mp hnd).2
    have herest : e ∉ rest := (List.nodup_cons.mp hnd).1
    simp only [List.foldl_cons]
    by_cases he : e ∈ acc
    · rw [dedupConcat_of_mem he, ih acc hrest,
        List.filter_cons_of_neg (by simpa using he)]
    · rw [dedupConcat_of_not_mem he, ih (acc ++ [e]) hrest,
        List.filter_cons_of_pos (by simpa using he)]
      have hcongr : rest.filter (fun x => decide (x ∉ acc ++ [e]))
          = rest.filter (fun x => decide (x ∉ acc)) := by
        apply List.filter_congr
        intro x hx
        have hxe : x ≠ e := fun h => herest (h ▸ hx)
        simp [List.mem_append, hxe]
      rw [hcongr]
      simp

theorem filter_erase_comm :
    ∀ (L : List String) (p : String → Bool) (a : String), p a = true →
      (L.erase a).filter p = (L.filter p).erase a := by
  intro L p a hp
  induction L with
  | nil => rfl
  | cons b t ih =>
    by_cases hb : b = a
    · subst hb
      rw [List.erase_cons_head, List.filter_cons_of_pos hp, List.erase_cons_head]
    · rw [List.erase_cons_tail (by simp [hb])]
      cases hpb : p b with
      | true =>
        rw [List.filter_cons_of_pos hpb, List.filter_cons_of_pos hpb, ih,
          List.erase_cons_tail (by simp [hb])]
      | false =>
        rw [List.filter_cons_of_neg (by simp [hpb]),
          List.filter_cons_of_neg (by simp [hpb]), ih]

theorem mergeRanked_move (L top : List String) (s : String) (hs : s ∈ top) :
    mergeRanked (moveToFront L s) top = s :: (mergeRanked L top).erase s := by
  unfold mergeRanked moveToFront
  have hfil : (s :: L.erase s).filter (fun e => decide (e ∈ top))
      = s :: (L.filter (fun e => decide (e ∈ top))).erase s := by
    rw [List.filter_cons_of_pos (by simpa using hs),
      filter_erase_comm L _ s (by simpa using hs)]
  rw [hfil]
  exact foldl_dedupConcat_move s top _

theorem mergeRanked_nodup (L top : List String) (h : L.Nodup) :
    (mergeRanked L top).Nodup :=
  foldl_dedupConcat_nodup top _ (h.filter _)

theorem mem_mergeRanked (L top : List String) (x : String)
    (h : x ∈ mergeRanked L top) : x ∈ top := by
  rcases mem_foldl_dedupConcat top _ x h with h' | h'
  · have := List.of_mem_filter h'
    simpa using this
  · exact h'

/-! ### Claim C3 — promotion puts the provider first -/

/-- C3 (amended): when dynamic sorting is enabled, the promoted provider is a
member of `TOP_EXCHANGES`, and the cached list for the key holds no
duplicates, `save_success_exchange` followed by `get_prioritized_exchanges`
yields a list with that provider first and no duplicate ids.  (As stated
over every provider and cache state the claim fails: a provider outside
`TOP_EXCHANGES` is dropped by the ranking, see
`record_success_nonmember_not_first`.) -/
theorem record_success_ranks_first_nodup (cfg : Config) (cache : SuccessCache)
    (sym tf P : String)
    (hdyn : cfg.enable_dynamic_sorting = true)
    (hP : P ∈ TOP_EXCHANGES)
    (hnd : (cache sym tf).Nodup) :
    (get_prioritized_exchanges cfg (save_success_exchange cache sym tf P) sym tf
        TOP_EXCHANGES).head? = some P ∧
    (get_prioritized_exchanges cfg (save_success_exchange cache sym tf P) sym tf
        TOP_EXCHANGES).Nodup := by
  have hc : save_success_exchange cache sym tf P sym tf = moveToFront (cache sym tf) P := by
    simp [save_success_exchange]
  have hg : get_prioritized_exchanges cfg (save_success_exchange cache sym tf P) sym tf
      TOP_EXCHANGES = mergeRanked (moveToFront (cache sym tf) P) TOP_EXCHANGES := by
    simp [get_prioritized_exchanges, hdyn, hc]
  rw [hg, mergeRanked_move _ _ _ hP]
  refine ⟨rfl, ?_⟩
  have h1 : (mergeRanked (cache sym tf) TOP_EXCHANGES).Nodup := mergeRanked_nodup _ _ hnd
  exact List.nodup_cons.mpr ⟨h1.not_mem_erase, h1.erase _⟩

/-- Witness for `record_success_ranks_first_nodup` at a concrete input. -/
theorem record_success_ranks_first_nodup_inst :
    defaultConfig.enable_dynamic_sorting = true ∧ "okx" ∈ TOP_EXCHANGES ∧
    (emptyCache "BTC/USDT" "1h").Nodup ∧
    ((get_prioritized_exchanges defaultConfig
        (save_success_exchange emptyCache "BTC/USDT" "1h" "okx") "BTC/USDT" "1h"
        TOP_EXCHANGES).head? = some "okx" ∧
      (get_prioritized_exchanges defaultConfig
        (save_success_exchange emptyCache "BTC/USDT" "1h" "okx") "BTC/USDT" "1h"
        TOP_EXCHANGES).Nodup) :=
  ⟨by decide, by decide, by decide,
    record_success_ranks_first_nodup defaultConfig emptyCache "BTC/USDT" "1h" "okx"
      (by decide) (by decide) (by decide)⟩

/-- Counterexample to C3 as stated: promoting a provider that is not in
`TOP_EXCHANGES` (here `bitget`) does not make it the first ranked provider —
the ranking drops it and starts with `binance` instead. -/
theorem record_success_nonmember_not_first :
    (get_prioritized_exchanges defaultConfig
        (save_success_exchange emptyCache "BTC/USDT" "1h" "bitget") "BTC/USDT" "1h"
        TOP_EXCHANGES).head? = some "binance" ∧
    ("binance" : String) ≠ "bitget" := by
  exact ⟨by decide, by decide⟩

/-! ### Claim C8 — ranked list is a permutation of the default list -/

/-- C8 (amended): with dynamic sorting enabled and a duplicate-free cached
list, the prioritized list is a permutation of `TOP_EXCHANGES`, and it is
exactly the cached members of `TOP_EXCHANGES` in cached order followed by
the remaining default exchanges in default order; cached ids outside
`TOP_EXCHANGES` are dropped.  (Over arbitrary cache states the claim fails:
a cached list with duplicates produces duplicates, see
`prioritized_not_perm_with_dup_cache`.) -/
theorem prioritized_perm_of_top (cfg : Config) (cache : SuccessCache) (sym tf : String)
    (hdyn : cfg.enable_dynamic_sorting = true)
    (hnd : (cache sym tf).Nodup) :
    (get_prioritized_exchanges cfg cache sym tf TOP_EXCHANGES).Perm TOP_EXCHANGES ∧
    get_prioritized_exchanges cfg cache sym tf TOP_EXCHANGES
      = (cache sym tf).filter (fun e => decide (e ∈ TOP_EXCHANGES))
        ++ TOP_EXCHANGES.filter (fun e =>
            decide (e ∉ (cache sym tf).filter (fun e' => decide (e' ∈ TOP_EXCHANGES)))) := by
  have hg : get_prioritized_exchanges cfg cache sym tf TOP_EXCHANGES
      = mergeRanked (cache sym tf) TOP_EXCHANGES := by
    simp [get_prioritized_exchanges, hdyn]
  have hchar : mergeRanked (cache sym tf) TOP_EXCHANGES
      = (cache sym tf).filter (fun e => decide (e ∈ TOP_EXCHANGES))
        ++ TOP_EXCHANGES.filter (fun e =>
            decide (e ∉ (cache sym tf).filter (fun e' => decide (e' ∈ TOP_EXCHANGES)))) := by
    exact foldl_dedupConcat_char TOP_EXCHANGES _ (by decide)
  refine ⟨?_, by rw [hg, hchar]⟩
  rw [hg]
  have hnodup : (mergeRanked (cache sym tf) TOP_EXCHANGES).Nodup := mergeRanked_nodup _ _ hnd
  have htopnd : TOP_EXCHANGES.Nodup := by decide
  rw [List.perm_ext_iff_of_nodup hnodup htopnd]
  intro a
  constructor
  · exact fun h => mem_mergeRanked _ _ _ h
  · intro ha
    rw [hchar]
    by_cases hf : a ∈ (cache sym tf).filter (fun e' => decide (e' ∈ TOP_EXCHANGES))
    · exact List.mem_append_left _ hf
    · exact List.mem_append_right _
        (List.mem_filter.mpr ⟨ha, by simp only [decide_eq_true_eq]; exact hf⟩)

/-- Witness for `prioritized_perm_of_top` at a concrete cache. -/
theorem prioritized_perm_of_top_inst :
    defaultConfig.enable_dynamic_sorting = true ∧
    ((save_success_exchange emptyCache "BTC/USDT" "1h" "okx") "BTC/USDT" "1h").Nodup ∧
    ((get_prioritized_exchanges defaultConfig
        (save_success_exchange emptyCache "BTC/USDT" "1h" "okx") "BTC/USDT" "1h"
        TOP_EXCHANGES).Perm TOP_EXCHANGES ∧
      get_prioritized_exchanges defaultConfig
          (save_success_exchange emptyCache "BTC/USDT" "1h" "okx") "BTC/USDT" "1h"
          TOP_EXCHANGES
        = ((save_success_exchange emptyCache "BTC/USDT" "1h" "okx") "BTC/USDT" "1h").filter
            (fun e => decide (e ∈ TOP_EXCHANGES))
          ++ TOP_EXCHANGES.filter (fun e =>
              decide (e ∉ ((save_success_exchange emptyCache "BTC/USDT" "1h" "okx")
                "BTC/USDT" "1h").filter (fun e' => decide (e' ∈ TOP_EXCHANGES))))) :=
  ⟨by decide, by decide,
    prioritized_perm_of_top defaultConfig
      (save_success_exchange emptyCache "BTC/USDT" "1h" "okx") "BTC/USDT" "1h"
      (by decide) (by decide)⟩

/-- Counterexample to C8 as stated: a cache state whose list for the key
contains `binance` twice makes the prioritized list an 11-element list with
`binance` twice, which is not a permutation of the 10-element
`TOP_EXCHANGES`. -/
theorem prioritized_not_perm_with_dup_cache :
    ¬ (get_prioritized_exchanges defaultConfig (fun _ _ => ["binance", "binance"])
        "BTC/USDT" "1h" TOP_EXCHANGES).Perm TOP_EXCHANGES := by
  intro h
  exact absurd h.length_eq (by decide)

/-! ### Claim C9 — disabled data filling returns the whole window -/

/-- C9: when `data.enable_data_filling` is false, `get_missing_timeframes`
returns the single range covering the whole requested window, for every
stored series. -/
theorem missing_whole_window_when_filling_disabled (cfg : Config)
    (store : Option (List Candle)) (tf : String) (start_time end_time now : Int)
    (h : cfg.enable_data_filling = false) :
    get_missing_timeframes cfg store tf start_time (some end_time) now
      = [(start_time, end_time)] := by
  simp [get_missing_timeframes, h]

/-- Witness for `missing_whole_window_when_filling_disabled` on a stored
series that fully covers the window, which would otherwise yield no gaps. -/
theorem missing_whole_window_when_filling_disabled_inst :
    (Config.mk true false).enable_data_filling = false ∧
    get_missing_timeframes (Config.mk true false)
        (some [⟨0, 1, 2, 3, 4, 5⟩, ⟨60, 1, 2, 3, 4, 5⟩, ⟨120, 1, 2, 3, 4, 5⟩]) "1h"
        0 (some 120) 200
      = [(0, 120)] :=
  ⟨by decide,
    missing_whole_window_when_filling_disabled (Config.mk true false) _ "1h" 0 120 200
      (by decide)⟩

/-! ### Claim C10 — ranking-cache persistence never raises -/

/-- C10 (amended): `load_success_exchanges` yields the empty document for a
missing or corrupt cache file and the stored document for a readable one,
and a failed write in `save_success_exchange` is swallowed, silently losing
the promotion — but the on-disk cache survives unchanged only when the
failure happens before the file is opened.  A failure during `json.dump`,
after `open(..., 'w')` has already truncated the file, leaves the cache
truncated/corrupt, so a subsequent load returns the empty document and the
entire previous cache is lost, not just the promotion (see
`ranking_cache_failed_dump_corrupts`). -/
theorem ranking_cache_io_total_and_silent :
    load_success_exchanges .absent = emptyCache ∧
    load_success_exchanges .corrupt = emptyCache ∧
    (∀ d, load_success_exchanges (.valid d) = d) ∧
    (∀ fs sym tf ex, save_success_exchange_file fs .ok sym tf ex
        = .valid (save_success_exchange (load_success_exchanges fs) sym tf ex)) ∧
    (∀ fs sym tf ex, save_success_exchange_file fs .openFail sym tf ex = fs) ∧
    (∀ fs sym tf ex,
      load_success_exchanges (save_success_exchange_file fs .openFail sym tf ex)
        = load_success_exchanges fs) ∧
    (∀ fs sym tf ex, save_success_exchange_file fs .dumpFail sym tf ex = .corrupt) ∧
    (∀ fs sym tf ex,
      load_success_exchanges (save_success_exchange_file fs .dumpFail sym tf ex)
        = emptyCache) :=
  ⟨rfl, rfl, fun _ => rfl, fun _ _ _ _ => rfl, fun _ _ _ _ => rfl, fun _ _ _ _ => rfl,
    fun _ _ _ _ => rfl, fun _ _ _ _ => rfl⟩

/-- Counterexample to C10 as stated: a write that fails during `json.dump`
does not leave the on-disk cache unchanged.  Starting from a readable file
holding `["okx"]` for the key, the failed save leaves a corrupt file and
the next load returns `[]` for that key instead of the pre-save `["okx"]`
— the whole cache is lost, not just the promotion. -/
theorem ranking_cache_failed_dump_corrupts :
    save_success_exchange_file (.valid (fun _ _ => ["okx"])) .dumpFail
        "BTC/USDT" "1h" "binance" = .corrupt ∧
    load_success_exchanges
        (save_success_exchange_file (.valid (fun _ _ => ["okx"])) .dumpFail
          "BTC/USDT" "1h" "binance") "BTC/USDT" "1h" = [] ∧
    load_success_exchanges (.valid (fun _ _ => ["okx"])) "BTC/USDT" "1h" = ["okx"] ∧
    (["okx"] : List String) ≠ [] :=
  ⟨rfl, rfl, rfl, by decide⟩

/-! ### Claim C2 — interior gap detection -/

/-- The interior-gap walk is the filter-map over consecutive timestamp
pairs with the source's strict threshold. -/
theorem interiorGaps_eq_filterMap (interval : Int) :
    ∀ l : List Candle,
      interiorGaps interval l
        = (consecTs l).filterMap (fun p =>
            if p.2 > (p.1 + interval) + interval
            then some (p.1 + interval, p.2) else none)
  | [] => rfl
  | [_] => rfl
  | c1 :: c2 :: rest => by
    have ih := interiorGaps_eq_filterMap interval (c2 :: rest)
    simp only [interiorGaps, consecTs, List.tail_cons, List.zip_cons_cons,
      List.map_cons, List.filterMap_cons] at ih ⊢
    by_cases hp : c2.timestamp > (c1.timestamp + interval) + interval
    · simp only [if_pos hp, ih, List.singleton_append]
    · simp only [if_neg hp, ih, List.nil_append]

/-- C2 (amended): walking consecutive stored timestamp pairs, an interior
gap `(prev + interval, next)` is emitted exactly when
`next > (prev + interval) + interval` — strictly more than one full
interval beyond the expected next stamp.  For the stored stamps
`T0, T0+1h, T0+3h` with interval 1h the gap equals exactly two intervals,
so nothing is emitted (the spec's example asserts one range there); a
series `T0, T0+1h, T0+4h+1m` does emit `(T0+2h, T0+4h+1m)`. -/
theorem interior_gap_detection :
    (∀ (interval : Int) (l : List Candle),
      interiorGaps interval l
        = (consecTs l).filterMap (fun p =>
            if p.2 > (p.1 + interval) + interval
            then some (p.1 + interval, p.2) else none)) ∧
    get_missing_timeframes defaultConfig
        (some [⟨0, 1, 1, 1, 1, 1⟩, ⟨60, 2, 2, 2, 2, 2⟩, ⟨180, 3, 3, 3, 3, 3⟩]) "1h"
        0 (some 180) 180
      = [] ∧
    get_missing_timeframes defaultConfig
        (some [⟨0, 1, 1, 1, 1, 1⟩, ⟨60, 2, 2, 2, 2, 2⟩, ⟨241, 3, 3, 3, 3, 3⟩]) "1h"
        0 (some 241) 241
      = [(120, 241)] := by
  exact ⟨interiorGaps_eq_filterMap, by decide, by decide⟩

/-- Counterexample to C2 as stated: for candles at `T0, T0+1h, T0+3h` with
interval 1h the detector emits no interior range — `T0+3h` equals
`T0+1h + 2×interval` exactly and the source's comparison is strict — while
the claim asserts the single range `(T0+2h, T0+3h)`. -/
theorem interior_gap_three_candle_example_empty :
    get_missing_timeframes defaultConfig
        (some [⟨0, 5, 5, 5, 5, 5⟩, ⟨60, 6, 6, 6, 6, 6⟩, ⟨180, 7, 7, 7, 7, 7⟩]) "1h"
        0 (some 180) 180
      = [] ∧
    ([] : List (Int × Int)) ≠ [(120, 180)] :=
  ⟨by decide, by decide⟩

/-! ### Lemmas about merging -/

theorem dedupAux_find? :
    ∀ (l : List Candle) (seen : List Int) (c : Candle),
      c ∈ dedupAux l seen →
      c.timestamp ∉ seen ∧ l.find? (fun d => d.timestamp == c.timestamp) = some c := by
  intro l
  induction l with
  | nil => intro seen c h; exact absurd h (List.not_mem_nil c)
  | cons a t ih =>
    intro seen c h
    by_cases ha : a.timestamp ∈ seen
    · rw [dedupAux, if_pos ha] at h
      obtain ⟨h1, h2⟩ := ih seen c h
      have hne : (a.timestamp == c.timestamp) = false := by
        refine beq_eq_false_iff_ne.mpr ?_
        intro he
        exact h1 (he ▸ ha)
      refine ⟨h1, ?_⟩
      rw [List.find?_cons, hne]
      exact h2
    · rw [dedupAux, if_neg ha] at h
      rcases List.mem_cons.mp h with h' | h'
      · subst h'
        refine ⟨ha, ?_⟩
        rw [List.find?_cons, beq_self_eq_true]
      · obtain ⟨h1, h2⟩ := ih (a.timestamp :: seen) c h'
        have hca : c.timestamp ≠ a.timestamp := by
          intro he
          exact h1 (by rw [he]; exact List.mem_cons_self _ _)
        have hne : (a.timestamp == c.timestamp) = false :=
          beq_eq_false_iff_ne.mpr (fun he => hca he.symm)
        refine ⟨fun hc => h1 (List.mem_cons_of_mem _ hc), ?_⟩
        rw [List.find?_cons, hne]
        exact h2

theorem dedupAux_ts_nodup :
    ∀ (l : List Candle) (seen : List Int),
      ((dedupAux l seen).map (fun c => c.timestamp)).Nodup ∧
      ∀ t ∈ (dedupAux l seen).map (fun c => c.timestamp), t ∉ seen := by
  intro l
  induction l with
  | nil => intro seen; exact ⟨List.nodup_nil, by simp [dedupAux]⟩
  | cons a t ih =>
    intro seen
    by_cases ha : a.timestamp ∈ seen
    · rw [dedupAux, if_pos ha]; exact ih seen
    · rw [dedupAux, if_neg ha]
      obtain ⟨h1, h2⟩ := ih (a.timestamp :: seen)
      simp only [List.map_cons]
      constructor
      · refine List.nodup_cons.mpr ⟨?_, h1⟩
        intro hmem
        exact h2 _ hmem (List.mem_cons_self _ _)
      · intro x hx
        rcases List.mem_cons.mp hx with h' | h'
        · exact h' ▸ ha
        · exact fun hs => h2 _ h' (List.mem_cons_of_mem _ hs)

theorem dedupAux_card :
    ∀ (l : List Candle) (seen : List Int),
      (dedupAux l seen).length
        = (((l.map (fun c => c.timestamp)).toFinset) \ seen.toFinset).card := by
  intro l
  induction l with
  | nil => intro seen; simp [dedupAux]
  | cons a t ih =>
    intro seen
    by_cases ha : a.timestamp ∈ seen
    · rw [dedupAux, if_pos ha, ih seen]
      congr 1
      ext x
      simp only [Finset.mem_sdiff, List.map_cons, List.mem_toFinset, List.toFinset_cons,
        Finset.mem_insert]
      constructor
      · rintro ⟨h1, h2⟩; exact ⟨Or.inr h1, h2⟩
      · rintro ⟨h1, h2⟩
        rcases h1 with h1 | h1
        · exact absurd (h1 ▸ (List.mem_toFinset.mpr ha)) (by simpa using h2)
        · exact ⟨h1, h2⟩
    · rw [dedupAux, if_neg ha]
      simp only [List.length_cons, ih (a.timestamp :: seen)]
      have hsplit : (t.map (fun c => c.timestamp)).toFinset \ (a.timestamp :: seen).toFinset
          = ((t.map (fun c => c.timestamp)).toFinset \ seen.toFinset).erase a.timestamp := by
        ext x
        simp only [Finset.mem_sdiff, List.toFinset_cons, Finset.mem_insert, Finset.mem_erase,
          List.mem_toFinset]
        tauto
      have hins : ((a :: t).map (fun c => c.timestamp)).toFinset \ seen.toFinset
          = insert a.timestamp ((t.map (fun c => c.timestamp)).toFinset \ seen.toFinset) := by
        ext x
        simp only [List.map_cons, List.toFinset_cons, Finset.mem_sdiff, Finset.mem_insert,
          List.mem_toFinset]
        constructor
        · rintro ⟨h1 | h1, h2⟩
          · exact Or.inl h1
          · exact Or.inr ⟨h1, h2⟩
        · rintro (h1 | ⟨h1, h2⟩)
          · exact ⟨Or.inl h1, by simpa [h1] using ha⟩
          · exact ⟨Or.inr h1, h2⟩
      rw [hsplit, hins]
      have hrw : insert a.timestamp ((t.map (fun c => c.timestamp)).toFinset \ seen.toFinset)
          = insert a.timestamp
              (((t.map (fun c => c.timestamp)).toFinset \ seen.toFinset).erase a.timestamp) := by
        ext x
        simp only [Finset.mem_insert, Finset.mem_erase]
        constructor
        · rintro (h | h)
          · exact Or.inl h
          · by_cases hx : x = a.timestamp
            · exact Or.inl hx
            · exact Or.inr ⟨hx, h⟩
        · rintro (h | ⟨_, h⟩)
          · exact Or.inl h
          · exact Or.inr h
      rw [hrw, Finset.card_insert_of_not_mem (Finset.not_mem_erase _ _)]

theorem drop_duplicates_length (l : List Candle) :
    (drop_duplicates_ts l).length = (l.map (fun c => c.timestamp)).toFinset.card := by
  rw [drop_duplicates_ts, dedupAux_card]
  simp

theorem mergeSeries_strict (e n : List Candle) : StrictByTs (mergeSeries e n) := by
  have hsort : List.Sorted (fun a b : Candle => a.timestamp ≤ b.timestamp) (mergeSeries e n) :=
    List.sorted_insertionSort _ _
  have hperm : (mergeSeries e n).Perm (drop_duplicates_ts (e ++ n)) :=
    List.perm_insertionSort _ _
  have hnd : ((drop_duplicates_ts (e ++ n)).map (fun c => c.timestamp)).Nodup :=
    (dedupAux_ts_nodup (e ++ n) []).1
  have hnd2 : ((mergeSeries e n).map (fun c => c.timestamp)).Nodup :=
    ((hperm.map _).nodup_iff).mpr hnd
  have hne : List.Pairwise (fun a b : Candle => a.timestamp ≠ b.timestamp) (mergeSeries e n) :=
    List.pairwise_map.mp hnd2
  exact (hsort.and hne).imp (fun h => lt_of_le_of_ne h.1 h.2)

theorem mergeSeries_find (e n : List Candle) (c : Candle) (h : c ∈ mergeSeries e n) :
    (e ++ n).find? (fun d => d.timestamp == c.timestamp) = some c := by
  have hmem : c ∈ drop_duplicates_ts (e ++ n) :=
    (List.perm_insertionSort _ _).mem_iff.mp h
  exact (dedupAux_find? (e ++ n) [] c hmem).2

theorem mergeSeries_length (e n : List Candle) :
    (mergeSeries e n).length = ((e ++ n).map (fun c => c.timestamp)).toFinset.card := by
  rw [mergeSeries, sortByTs, List.length_insertionSort, drop_duplicates_length]

/-! ### Claim C5 — merge keeps first-seen rows, sorted, deduplicated -/

/-- C5: merging a fetched batch into the existing series keeps, per
timestamp, the first-seen row of `existing ++ batch` (so existing rows win
over fetched rows with the same timestamp), the result has strictly
increasing timestamps (sorted ascending, no duplicates), and merging 5 rows
into a 10-row series with 2 overlapping timestamps yields exactly 13 rows. -/
theorem merge_first_seen_sorted_count (e n : List Candle)
    (he : (e.map (fun c => c.timestamp)).Nodup)
    (hn : (n.map (fun c => c.timestamp)).Nodup)
    (hle : e.length = 10) (hln : n.length = 5)
    (hover : ((e.map (fun c => c.timestamp)).toFinset
        ∩ (n.map (fun c => c.timestamp)).toFinset).card = 2) :
    StrictByTs (mergeSeries e n) ∧
    (∀ c ∈ mergeSeries e n,
      (e ++ n).find? (fun d => d.timestamp == c.timestamp) = some c) ∧
    (mergeSeries e n).length = 13 := by
  refine ⟨mergeSeries_strict e n, fun c hc => mergeSeries_find e n c hc, ?_⟩
  rw [mergeSeries_length, List.map_append, List.toFinset_append]
  have h1 : (e.map (fun c => c.timestamp)).toFinset.card = 10 := by
    rw [List.toFinset_card_of_nodup he, List.length_map, hle]
  have h2 : (n.map (fun c => c.timestamp)).toFinset.card = 5 := by
    rw [List.toFinset_card_of_nodup hn, List.length_map, hln]
  have h3 := Finset.card_union_add_card_inter
    (e.map (fun c => c.timestamp)).toFinset (n.map (fun c => c.timestamp)).toFinset
  omega

/-- Witness for `merge_first_seen_sorted_count`: a 10-row series and a
5-row batch sharing the timestamps 8 and 9. -/
theorem merge_first_seen_sorted_count_inst :
    (mergeSeries
        [⟨0,1,1,1,1,1⟩, ⟨1,1,1,1,1,1⟩, ⟨2,1,1,1,1,1⟩, ⟨3,1,1,1,1,1⟩, ⟨4,1,1,1,1,1⟩,
         ⟨5,1,1,1,1,1⟩, ⟨6,1,1,1,1,1⟩, ⟨7,1,1,1,1,1⟩, ⟨8,1,1,1,1,1⟩, ⟨9,1,1,1,1,1⟩]
        [⟨8,2,2,2,2,2⟩, ⟨9,2,2,2,2,2⟩, ⟨10,2,2,2,2,2⟩, ⟨11,2,2,2,2,2⟩,
         ⟨12,2,2,2,2,2⟩]).length = 13 :=
  (merge_first_seen_sorted_count _ _ (by decide) (by decide) (by decide) (by decide)
    (by decide)).2.2

/-! ### Lemmas about the fetch loops -/

theorem fetchLoop_all_fail (world : String → ExchResult) (cache : SuccessCache)
    (sym tf : String) :
    ∀ (xs l : List String), (∀ x ∈ xs, succeedsExch (world x) = false) →
      fetchLoop world cache sym tf (xs ++ l)
        = (xs ++ (fetchLoop world cache sym tf l).1,
            (fetchLoop world cache sym tf l).2) := by
  intro xs
  induction xs with
  | nil => intro l _; rfl
  | cons x xs ih =>
    intro l h
    have hx : succeedsExch (world x) = false := h x (List.mem_cons_self _ _)
    have hxs : ∀ y ∈ xs, succeedsExch (world y) = false :=
      fun y hy => h y (List.mem_cons_of_mem _ hy)
    cases hw : world x with
    | rows ohlcv =>
      have hlen : ¬ 0 < ohlcv.length := by
        rw [succeedsExch.eq_def, hw] at hx
        simpa using hx
      simp only [List.cons_append, fetchLoop, hw, if_neg hlen, List.append_eq]
      rw [ih l hxs]
    | unsupported =>
      simp only [List.cons_append, fetchLoop, hw, List.append_eq]
      rw [ih l hxs]
    | raised =>
      simp only [List.cons_append, fetchLoop, hw, List.append_eq]
      rw [ih l hxs]

theorem fetchLoop_success_head (world : String → ExchResult) (cache : SuccessCache)
    (sym tf s : String) (l : List String) (data : List Candle)
    (hs : world s = .rows data) (hd : 0 < data.length) :
    fetchLoop world cache sym tf (s :: l)
      = ([s], save_success_exchange cache sym tf s, some (s, data)) := by
  simp only [fetchLoop, hs, if_pos hd]

/-! ### Claim C4 — first success wins and is promoted -/

/-- C4: for any ranked list splitting as `xs ++ s :: ys` where every
exchange in `xs` fails and `s` returns nonempty rows, the orchestrator
attempts exactly `xs ++ [s]` (nothing after `s`), records the success in
the registry, and returns `(s, rows)`; the subsequent ranking starts with
`s` followed by the remaining exchanges in their previous order
(`[X, Y, Z]` with `Z` succeeding becomes `[Z, X, Y]`). -/
theorem fetch_first_success_stops_and_promotes (cfg : Config) (cache : SuccessCache)
    (world : String → ExchResult) (sym tf : String) (top xs ys : List String)
    (s : String) (data : List Candle)
    (hdyn : cfg.enable_dynamic_sorting = true)
    (hrank : get_prioritized_exchanges cfg cache sym tf top = xs ++ s :: ys)
    (hxs : ∀ x ∈ xs, succeedsExch (world x) = false)
    (hs : world s = .rows data) (hd : 0 < data.length) :
    fetch_ohlcv_from_multiple_exchanges cfg world cache sym tf top
      = (xs ++ [s], save_success_exchange cache sym tf s, some (s, data)) ∧
    get_prioritized_exchanges cfg (save_success_exchange cache sym tf s) sym tf top
      = s :: (xs ++ ys) := by
  have hnotin : s ∉ xs := by
    intro hmem
    have := hxs s hmem
    rw [succeedsExch.eq_def, hs] at this
    simp [hd] at this
  constructor
  · rw [fetch_ohlcv_from_multiple_exchanges, hrank,
      fetchLoop_all_fail world cache sym tf xs (s :: ys) hxs,
      fetchLoop_success_head world cache sym tf s ys data hs hd]
  · have hstop : s ∈ top := by
      have hmem : s ∈ get_prioritized_exchanges cfg cache sym tf top := by
        rw [hrank]
        exact List.mem_append_right _ (List.mem_cons_self _ _)
      rw [get_prioritized_exchanges, if_neg (by simp [hdyn])] at hmem
      exact mem_mergeRanked _ _ _ hmem
    have hc : save_success_exchange cache sym tf s sym tf
        = moveToFront (cache sym tf) s := by
      simp [save_success_exchange]
    rw [get_prioritized_exchanges, if_neg (by simp [hdyn]), hc,
      mergeRanked_move _ _ _ hstop]
    rw [get_prioritized_exchanges, if_neg (by simp [hdyn])] at hrank
    rw [hrank, List.erase_append_right _ hnotin, List.erase_cons_head]

/-- Witness for `fetch_first_success_stops_and_promotes`: ranking
`[X, Y, Z]`, `X` raises, `Y` reports no OHLCV support, `Z` returns one
row; the result is `(Z, rows)` after attempts `[X, Y, Z]` and the new
ranking is `[Z, X, Y]`. -/
theorem fetch_first_success_stops_and_promotes_inst :
    fetch_ohlcv_from_multiple_exchanges defaultConfig
        (fun e => if e = "Z" then .rows [⟨5, 1, 1, 1, 1, 1⟩] else .raised)
        emptyCache "BTC/USDT" "1h" ["X", "Y", "Z"]
      = (["X", "Y"] ++ ["Z"],
          save_success_exchange emptyCache "BTC/USDT" "1h" "Z",
          some ("Z", [⟨5, 1, 1, 1, 1, 1⟩])) ∧
    get_prioritized_exchanges defaultConfig
        (save_success_exchange emptyCache "BTC/USDT" "1h" "Z") "BTC/USDT" "1h"
        ["X", "Y", "Z"]
      = "Z" :: (["X", "Y"] ++ []) :=
  fetch_first_success_stops_and_promotes defaultConfig emptyCache
    (fun e => if e = "Z" then .rows [⟨5, 1, 1, 1, 1, 1⟩] else .raised)
    "BTC/USDT" "1h" ["X", "Y", "Z"] ["X", "Y"] [] "Z" [⟨5, 1, 1, 1, 1, 1⟩]
    (by decide) (by decide) (by decide) (by decide) (by decide)

/-! ### Claim C1 — failure report after exhausting all providers -/

theorem fetchDataLoop_all_fail (world : String → FetchOutcome) (full : List String) :
    ∀ (xs : List String) (x : String) (a : Option (String × ErrKind)) (b : Option String),
      (∀ e ∈ xs ++ [x], succeedsOutcome (world e) = false) →
      fetchDataLoop world true full (xs ++ [x]) a b
        = .failAll ⟨some x, some (x, errKindOf (world x)), full⟩ := by
  intro xs
  induction xs with
  | nil =>
    intro x a b h
    have hx : succeedsOutcome (world x) = false := h x (List.mem_cons_self _ _)
    cases hw : world x with
    | ok rows =>
      have hempty : rows.isEmpty = true := by
        rw [succeedsOutcome.eq_def, hw] at hx
        simpa using hx
      simp only [List.nil_append, fetchDataLoop, hw, hempty, if_pos rfl, if_true,
        errKindOf]
    | notAvailable => simp only [List.nil_append, fetchDataLoop, hw, errKindOf]; rfl
    | networkError => simp only [List.nil_append, fetchDataLoop, hw, errKindOf]; rfl
    | exchangeError => simp only [List.nil_append, fetchDataLoop, hw, errKindOf]; rfl
    | otherError => simp only [List.nil_append, fetchDataLoop, hw, errKindOf]; rfl
  | cons e xs ih =>
    intro x a b h
    have hx : succeedsOutcome (world e) = false := h e (List.mem_cons_self _ _)
    have hxs : ∀ y ∈ xs ++ [x], succeedsOutcome (world y) = false :=
      fun y hy => h y (List.mem_cons_of_mem _ hy)
    cases hw : world e with
    | ok rows =>
      have hempty : rows.isEmpty = true := by
        rw [succeedsOutcome.eq_def, hw] at hx
        simpa using hx
      simp only [List.cons_append, fetchDataLoop, hw, hempty, if_pos rfl, if_true]
      exact ih x _ _ hxs
    | notAvailable =>
      simp only [List.cons_append, fetchDataLoop, hw]
      exact ih x _ _ hxs
    | networkError =>
      simp only [List.cons_append, fetchDataLoop, hw]
      exact ih x _ _ hxs
    | exchangeError =>
      simp only [List.cons_append, fetchDataLoop, hw]
      exact ih x _ _ hxs
    | otherError =>
      simp only [List.cons_append, fetchDataLoop, hw]
      exact ih x _ _ hxs

/-- C1 (amended): when every exchange of the list fails, `fetch_data`'s
loop raises a single aggregate error carrying the full list of exchanges
tried, in order (exactly 3 entries for a ranking of three), together with
the identity and classified error of only the LAST attempt; it does not
aggregate one FetchAttempt per provider (see
`fetch_data_failure_not_per_provider`, and `src/main.py`'s orchestrator
returns `(None, None)` with no report at all). -/
theorem fetch_data_failure_lists_tried_with_last_error
    (world : String → FetchOutcome) (xs : List String) (x : String)
    (h : ∀ e ∈ xs ++ [x], succeedsOutcome (world e) = false) :
    fetchDataLoop world true (xs ++ [x]) (xs ++ [x]) none none
      = .failAll ⟨some x, some (x, errKindOf (world x)), xs ++ [x]⟩ :=
  fetchDataLoop_all_fail world (xs ++ [x]) xs x none none h

/-- Witness for `fetch_data_failure_lists_tried_with_last_error`: three
exchanges, all with network errors; the failure value lists the 3 tried
exchanges in order and only the last one's error. -/
theorem fetch_data_failure_lists_tried_with_last_error_inst :
    fetchDataLoop (fun _ => .networkError) true (["X", "Y"] ++ ["Z"])
        (["X", "Y"] ++ ["Z"]) none none
      = .failAll ⟨some "Z", some ("Z", .network), ["X", "Y"] ++ ["Z"]⟩ :=
  fetch_data_failure_lists_tried_with_last_error (fun _ => .networkError)
    ["X", "Y"] "Z" (by decide)

/-- Counterexample to C1 as stated: two worlds that differ in the first
provider's outcome (network error versus exchange-level error), with every
provider failing, produce an identical failure value from `fetch_data`, so
that value cannot aggregate one FetchAttempt per provider — the spec-side
attempt lists differ.  The `src/main.py` orchestrator cited by the claim
returns no report at all (`None` result) when all providers fail. -/
theorem fetch_data_failure_not_per_provider :
    fetch_data (fun _ => .networkError) none true
      = fetch_data (fun e => if e = "binance" then .exchangeError else .networkError)
          none true ∧
    specFailureAttempts (fun _ => .networkError) SUPPORTED_EXCHANGES
      ≠ specFailureAttempts
          (fun e => if e = "binance" then .exchangeError else .networkError)
          SUPPORTED_EXCHANGES ∧
    (fetch_ohlcv_from_multiple_exchanges defaultConfig (fun _ => .raised) emptyCache
        "BTC/USDT" "1h" TOP_EXCHANGES).2.2 = none :=
  ⟨by decide, by decide, by decide⟩

/-! ### Lemmas about the backfill loop -/

theorem fillLoop_success_iff_filled (w : FillWorld) (tf : String) :
    ∀ (ms : List (Int × Int)) (ex : List Candle) (st : Option (List Candle)) (s : Bool),
      (fillLoop w tf ms ex st s).1 = (s || !(fillLoop w tf ms ex st s).2.2.isEmpty) := by
  intro ms
  induction ms with
  | nil => intro ex st s; simp [fillLoop]
  | cons p rest ih =>
    intro ex st s
    obtain ⟨ps, pe⟩ := p
    simp only [fillLoop]
    cases hf : w.fetch (ps, pe) (min (computeLimit tf ps pe) 1000) with
    | none => exact ih ex st s
    | some r =>
      obtain ⟨exg, df⟩ := r
      by_cases hlen : 0 < df.length
      · simp only [if_pos hlen]
        by_cases hsave : w.save (mergeSeries ex df) = true
        · simp only [hsave, if_true]
          rw [ih (mergeSeries ex df) (some (mergeSeries ex df)) true]
          simp
        · simp only [hsave, if_false]
          exact ih ex st s
      · simp only [if_neg hlen]
        exact ih ex st s

/-! ### Claim C6 — aggregate success signal of the backfill -/

/-- C6 (amended): when gap detection reports missing periods, the
backfill's boolean is true exactly when at least one period was fetched
with rows and persisted (the `filled` trace is nonempty); a fetch failure
on one period leaves the loop to continue with the rest unchanged, and in
the two-period scenario where the first fails and the second succeeds the
flag is true.  (As stated over every missing sequence the claim fails: with
no missing periods the source returns `True` having fetched nothing, see
`backfill_true_with_no_missing`.) -/
theorem backfill_success_iff_some_filled (cfg : Config) (w w' : FillWorld)
    (store : Option (List Candle)) (tf : String) (st et now : Int)
    (r1 r2 : Int × Int) (ex : List Candle) (st' : Option (List Candle))
    (exg : String) (df : List Candle)
    (hne : get_missing_timeframes cfg store tf st (some et) now ≠ [])
    (h1 : w'.fetch r1 (min (computeLimit tf r1.1 r1.2) 1000) = none)
    (h2 : w'.fetch r2 (min (computeLimit tf r2.1 r2.2) 1000) = some (exg, df))
    (h3 : 0 < df.length)
    (h4 : w'.save (mergeSeries ex df) = true) :
    ((fetch_and_save_ohlcv_data cfg w store tf st et now).1 = true
      ↔ (fetch_and_save_ohlcv_data cfg w store tf st et now).2.2 ≠ []) ∧
    fillLoop w' tf [r1, r2] ex st' false = fillLoop w' tf [r2] ex st' false ∧
    (fillLoop w' tf [r1, r2] ex st' false).1 = true := by
  refine ⟨?_, ?_, ?_⟩
  · rw [fetch_and_save_ohlcv_data]
    rw [if_neg (by simpa [List.isEmpty_iff] using hne)]
    rw [fillLoop_success_iff_filled w tf _ _ _ false]
    simp [List.isEmpty_iff]
  · obtain ⟨ps, pe⟩ := r1
    simp only [fillLoop, h1]
  · obtain ⟨ps, pe⟩ := r1
    obtain ⟨qs, qe⟩ := r2
    simp only [fillLoop, h1, h2, if_pos h3, h4, if_true]

/-- Witness for `backfill_success_iff_some_filled`: a stored single candle
leaves the trailing window missing; the first of two periods fails to
fetch, the second returns one row and the save succeeds. -/
theorem backfill_success_iff_some_filled_inst :
    get_missing_timeframes defaultConfig (some [⟨0, 1, 1, 1, 1, 1⟩]) "1h"
        0 (some 180) 180 ≠ [] ∧
    (((fetch_and_save_ohlcv_data defaultConfig
        ⟨fun r _ => if r.1 = 60 then none else some ("okx", [⟨130, 1, 1, 1, 1, 1⟩]),
          fun _ => true⟩
        (some [⟨0, 1, 1, 1, 1, 1⟩]) "1h" 0 180 180).1 = true
      ↔ (fetch_and_save_ohlcv_data defaultConfig
        ⟨fun r _ => if r.1 = 60 then none else some ("okx", [⟨130, 1, 1, 1, 1, 1⟩]),
          fun _ => true⟩
        (some [⟨0, 1, 1, 1, 1, 1⟩]) "1h" 0 180 180).2.2 ≠ []) ∧
    fillLoop ⟨fun r _ => if r.1 = 60 then none else some ("okx", [⟨130, 1, 1, 1, 1, 1⟩]),
          fun _ => true⟩ "1h" [(60, 120), (120, 180)] [⟨0, 1, 1, 1, 1, 1⟩] none false
      = fillLoop ⟨fun r _ => if r.1 = 60 then none else some ("okx", [⟨130, 1, 1, 1, 1, 1⟩]),
          fun _ => true⟩ "1h" [(120, 180)] [⟨0, 1, 1, 1, 1, 1⟩] none false ∧
    (fillLoop ⟨fun r _ => if r.1 = 60 then none else some ("okx", [⟨130, 1, 1, 1, 1, 1⟩]),
          fun _ => true⟩ "1h" [(60, 120), (120, 180)] [⟨0, 1, 1, 1, 1, 1⟩] none false).1
      = true) :=
  ⟨by decide,
    backfill_success_iff_some_filled defaultConfig
      ⟨fun r _ => if r.1 = 60 then none else some ("okx", [⟨130, 1, 1, 1, 1, 1⟩]),
        fun _ => true⟩
      ⟨fun r _ => if r.1 = 60 then none else some ("okx", [⟨130, 1, 1, 1, 1, 1⟩]),
        fun _ => true⟩
      (some [⟨0, 1, 1, 1, 1, 1⟩]) "1h" 0 180 180 (60, 120) (120, 180)
      [⟨0, 1, 1, 1, 1, 1⟩] none "okx" [⟨130, 1, 1, 1, 1, 1⟩]
      (by decide) (by decide) (by decide) (by decide) (by decide)⟩

/-- Counterexample to C6 as stated: with a stored series fully covering the
window no period is missing, and the source returns `True` although the
supplied world cannot fetch anything at all and nothing was persisted. -/
theorem backfill_true_with_no_missing :
    fetch_and_save_ohlcv_data defaultConfig ⟨fun _ _ => none, fun _ => false⟩
        (some [⟨0, 1, 1, 1, 1, 1⟩, ⟨60, 1, 1, 1, 1, 1⟩, ⟨120, 1, 1, 1, 1, 1⟩]) "1h"
        0 120 120
      = (true, some [⟨0, 1, 1, 1, 1, 1⟩, ⟨60, 1, 1, 1, 1, 1⟩, ⟨120, 1, 1, 1, 1, 1⟩], []) := by
  decide

/-! ### Lemmas for idempotence of the backfill -/

theorem dedupAux_eq_self :
    ∀ (l : List Candle) (seen : List Int),
      (l.map (fun c => c.timestamp)).Nodup → (∀ c ∈ l, c.timestamp ∉ seen) →
      dedupAux l seen = l := by
  intro l
  induction l with
  | nil => intro seen _ _; rfl
  | cons a t ih =>
    intro seen hnd hdis
    have ha : a.timestamp ∉ seen := hdis a (List.mem_cons_self _ _)
    rw [dedupAux, if_neg ha]
    congr 1
    have hnd' : (a.timestamp :: t.map (fun c => c.timestamp)).Nodup := by
      simpa using hnd
    apply ih
    · exact (List.nodup_cons.mp hnd').2
    · intro c hc hmem
      rcases List.mem_cons.mp hmem with h' | h'
      · exact (List.nodup_cons.mp hnd').1 (h' ▸ List.mem_map_of_mem _ hc)
      · exact hdis c (List.mem_cons_of_mem _ hc) h'

theorem dedupAux_append :
    ∀ (l extra : List Candle) (seen : List Int),
      dedupAux (l ++ extra) seen
        = dedupAux l seen ++ dedupAux extra (seenAfter l seen) := by
  intro l
  induction l with
  | nil => intro extra seen; rfl
  | cons a t ih =>
    intro extra seen
    by_cases ha : a.timestamp ∈ seen
    · rw [List.cons_append, dedupAux, if_pos ha, dedupAux, if_pos ha, ih]
      congr 2
      simp [seenAfter, ha]
    · rw [List.cons_append, dedupAux, if_neg ha, dedupAux, if_neg ha, ih,
        List.cons_append]
      congr 3
      simp [seenAfter, ha]

theorem mem_seenAfter :
    ∀ (l : List Candle) (seen : List Int) (x : Int),
      (x ∈ seen ∨ ∃ c ∈ l, c.timestamp = x) → x ∈ seenAfter l seen := by
  intro l
  induction l with
  | nil =>
    intro seen x h
    rcases h with h | ⟨c, hc, _⟩
    · exact h
    · exact absurd hc (List.not_mem_nil c)
  | cons a t ih =>
    intro seen x h
    have hstep : seenAfter (a :: t) seen
        = seenAfter t (if a.timestamp ∈ seen then seen else a.timestamp :: seen) := rfl
    rw [hstep]
    rcases h with h | ⟨c, hc, hx⟩
    · refine ih _ x (Or.inl ?_)
      by_cases haz : a.timestamp ∈ seen
      · rw [if_pos haz]; exact h
      · rw [if_neg haz]; exact List.mem_cons_of_mem _ h
    · rcases List.mem_cons.mp hc with h' | h'
      · subst h'
        refine ih _ x (Or.inl ?_)
        by_cases haz : c.timestamp ∈ seen
        · rw [if_pos haz]; exact hx ▸ haz
        · rw [if_neg haz]; exact hx ▸ List.mem_cons_self _ _
      · exact ih _ x (Or.inr ⟨c, h', hx⟩)

theorem dedupAux_nil_of_seen :
    ∀ (extra : List Candle) (seen : List Int),
      (∀ c ∈ extra, c.timestamp ∈ seen) → dedupAux extra seen = [] := by
  intro extra
  induction extra with
  | nil => intro seen _; rfl
  | cons a t ih =>
    intro seen h
    rw [dedupAux, if_pos (h a (List.mem_cons_self _ _))]
    exact ih seen (fun c hc => h c (List.mem_cons_of_mem _ hc))

theorem mergeSeries_noop (l df : List Candle)
    (hnd : StrictByTs l)
    (hsub : ∀ c ∈ df, c.timestamp ∈ l.map (fun c' => c'.timestamp)) :
    mergeSeries l df = l := by
  have hts : (l.map (fun c => c.timestamp)).Nodup :=
    List.pairwise_map.mpr (hnd.imp (fun h => ne_of_lt h))
  have h1 : drop_duplicates_ts (l ++ df) = l := by
    rw [drop_duplicates_ts, dedupAux_append,
      dedupAux_eq_self l [] hts (fun c _ h => List.not_mem_nil _ h),
      dedupAux_nil_of_seen df (seenAfter l []) ?_, List.append_nil]
    intro c hc
    refine mem_seenAfter l [] _ (Or.inr ?_)
    rcases List.mem_map.mp (hsub c hc) with ⟨c', hc', he⟩
    exact ⟨c', hc', he⟩
  rw [mergeSeries, h1, sortByTs]
  exact List.Sorted.insertionSort_eq (hnd.imp (fun h => le_of_lt h))

theorem fillLoop_cons_none (w : FillWorld) (tf : String) (ps pe : Int)
    (rest : List (Int × Int)) (ex : List Candle) (st : Option (List Candle)) (s : Bool)
    (hf : w.fetch (ps, pe) (min (computeLimit tf ps pe) 1000) = none) :
    fillLoop w tf ((ps, pe) :: rest) ex st s = fillLoop w tf rest ex st s := by
  simp only [fillLoop, hf]

theorem fillLoop_cons_empty (w : FillWorld) (tf : String) (ps pe : Int)
    (rest : List (Int × Int)) (ex : List Candle) (st : Option (List Candle)) (s : Bool)
    (exg : String) (df : List Candle)
    (hf : w.fetch (ps, pe) (min (computeLimit tf ps pe) 1000) = some (exg, df))
    (hlen : ¬ 0 < df.length) :
    fillLoop w tf ((ps, pe) :: rest) ex st s = fillLoop w tf rest ex st s := by
  simp only [fillLoop, hf, if_neg hlen]

theorem fillLoop_cons_savefail (w : FillWorld) (tf : String) (ps pe : Int)
    (rest : List (Int × Int)) (ex : List Candle) (st : Option (List Candle)) (s : Bool)
    (exg : String) (df : List Candle)
    (hf : w.fetch (ps, pe) (min (computeLimit tf ps pe) 1000) = some (exg, df))
    (hlen : 0 < df.length) (hsave : ¬ w.save (mergeSeries ex df) = true) :
    fillLoop w tf ((ps, pe) :: rest) ex st s = fillLoop w tf rest ex st s := by
  simp only [fillLoop, hf, if_pos hlen, if_neg hsave]

theorem fillLoop_cons_saveok (w : FillWorld) (tf : String) (ps pe : Int)
    (rest : List (Int × Int)) (ex : List Candle) (st : Option (List Candle)) (s : Bool)
    (exg : String) (df : List Candle)
    (hf : w.fetch (ps, pe) (min (computeLimit tf ps pe) 1000) = some (exg, df))
    (hlen : 0 < df.length) (hsave : w.save (mergeSeries ex df) = true) :
    fillLoop w tf ((ps, pe) :: rest) ex st s
      = ((fillLoop w tf rest (mergeSeries ex df) (some (mergeSeries ex df)) true).1,
          (fillLoop w tf rest (mergeSeries ex df) (some (mergeSeries ex df)) true).2.1,
          (ps, pe) ::
            (fillLoop w tf rest (mergeSeries ex df) (some (mergeSeries ex df)) true).2.2) := by
  simp only [fillLoop, hf, if_pos hlen, hsave, if_true]

theorem fillLoop_store_sorted (w : FillWorld) (tf : String) :
    ∀ (ms : List (Int × Int)) (ex : List Candle) (st : Option (List Candle)) (s : Bool),
      (∀ S, st = some S → StrictByTs S) →
      ∀ S', (fillLoop w tf ms ex st s).2.1 = some S' → StrictByTs S' := by
  intro ms
  induction ms with
  | nil => intro ex st s h S' hS'; exact h S' hS'
  | cons p rest ih =>
    intro ex st s h S' hS'
    obtain ⟨ps, pe⟩ := p
    cases hf : w.fetch (ps, pe) (min (computeLimit tf ps pe) 1000) with
    | none =>
      rw [fillLoop_cons_none w tf ps pe rest ex st s hf] at hS'
      exact ih ex st s h S' hS'
    | some r =>
      obtain ⟨exg, df⟩ := r
      by_cases hlen : 0 < df.length
      · by_cases hsave : w.save (mergeSeries ex df) = true
        · rw [fillLoop_cons_saveok w tf ps pe rest ex st s exg df hf hlen hsave] at hS'
          refine ih (mergeSeries ex df) (some (mergeSeries ex df)) true ?_ S' hS'
          intro S hS
          cases hS
          exact mergeSeries_strict ex df
        · rw [fillLoop_cons_savefail w tf ps pe rest ex st s exg df hf hlen hsave] at hS'
          exact ih ex st s h S' hS'
      · rw [fillLoop_cons_empty w tf ps pe rest ex st s exg df hf hlen] at hS'
        exact ih ex st s h S' hS'

theorem fillLoop_store_noop (w : FillWorld) (tf : String) (ex : List Candle)
    (st : Option (List Candle))
    (hex : ex = st.getD [])
    (hsorted : StrictByTs ex)
    (hw : ∀ r lim exg df, w.fetch r lim = some (exg, df) →
        ∀ c ∈ df, c.timestamp ∈ ex.map (fun c' => c'.timestamp)) :
    ∀ (ms : List (Int × Int)) (s : Bool),
      (fillLoop w tf ms ex st s).2.1 = st := by
  intro ms
  induction ms with
  | nil => intro s; rfl
  | cons p rest ih =>
    intro s
    obtain ⟨ps, pe⟩ := p
    cases hf : w.fetch (ps, pe) (min (computeLimit tf ps pe) 1000) with
    | none =>
      rw [fillLoop_cons_none w tf ps pe rest ex st s hf]
      exact ih s
    | some r =>
      obtain ⟨exg, df⟩ := r
      by_cases hlen : 0 < df.length
      · have hsub := hw _ _ _ _ hf
        have hcomb : mergeSeries ex df = ex := mergeSeries_noop ex df hsorted hsub
        by_cases hsave : w.save (mergeSeries ex df) = true
        · have hst : st = some ex := by
            cases hstc : st with
            | none =>
              exfalso
              rw [hstc] at hex
              simp only [Option.getD_none] at hex
              obtain ⟨c, hc⟩ := List.exists_mem_of_length_pos hlen
              have := hsub c hc
              rw [hex] at this
              simp at this
            | some S =>
              rw [hstc] at hex
              simp only [Option.getD_some] at hex
              rw [hex]
          rw [fillLoop_cons_saveok w tf ps pe rest ex st s exg df hf hlen hsave]
          simp only [hcomb, ← hst]
          exact ih true
        · rw [fillLoop_cons_savefail w tf ps pe rest ex st s exg df hf hlen hsave]
          exact ih s
      · rw [fillLoop_cons_empty w tf ps pe rest ex st s exg df hf hlen]
        exact ih s

theorem fetch_and_save_store_sorted (cfg : Config) (w : FillWorld)
    (store : Option (List Candle)) (tf : String) (st et now : Int)
    (h : ∀ S, store = some S → StrictByTs S) :
    ∀ S', (fetch_and_save_ohlcv_data cfg w store tf st et now).2.1 = some S' →
      StrictByTs S' := by
  intro S' hS'
  rw [fetch_and_save_ohlcv_data] at hS'
  by_cases hm : (get_missing_timeframes cfg store tf st (some et) now).isEmpty
  · rw [if_pos hm] at hS'
    exact h S' hS'
  · rw [if_neg hm] at hS'
    exact fillLoop_store_sorted w tf _ _ _ _ h S' hS'

theorem fetch_and_save_store_noop (cfg : Config) (w : FillWorld)
    (store : Option (List Candle)) (tf : String) (st et now : Int)
    (hsorted : ∀ S, store = some S → StrictByTs S)
    (hw : ∀ r lim exg df, w.fetch r lim = some (exg, df) →
        ∀ c ∈ df, c.timestamp ∈ (store.getD []).map (fun c' => c'.timestamp)) :
    (fetch_and_save_ohlcv_data cfg w store tf st et now).2.1 = store := by
  rw [fetch_and_save_ohlcv_data]
  by_cases hm : (get_missing_timeframes cfg store tf st (some et) now).isEmpty
  · rw [if_pos hm]
  · rw [if_neg hm]
    refine fillLoop_store_noop w tf (store.getD []) store rfl ?_ hw _ false
    cases store with
    | none => exact List.Pairwise.nil
    | some S => exact hsorted S rfl

/-! ### Claim C7 — backfill is idempotent on the persisted series -/

/-- C7: starting from a well-formed store (strictly increasing timestamps),
run the backfill once; a second run whose fetches return only rows with
timestamps already present in the persisted series (no new remote data
available) leaves the persisted series row-for-row identical to its state
after the first run. -/
theorem backfill_idempotent_store (cfg : Config) (w1 w2 : FillWorld)
    (store0 : Option (List Candle)) (tf : String) (st et now st2 et2 now2 : Int)
    (h0 : ∀ S, store0 = some S → StrictByTs S)
    (hnonew : ∀ r lim exg df, w2.fetch r lim = some (exg, df) →
        ∀ c ∈ df, c.timestamp ∈
          (((fetch_and_save_ohlcv_data cfg w1 store0 tf st et now).2.1).getD []).map
            (fun c' => c'.timestamp)) :
    (fetch_and_save_ohlcv_data cfg w2
        (fetch_and_save_ohlcv_data cfg w1 store0 tf st et now).2.1 tf st2 et2 now2).2.1
      = (fetch_and_save_ohlcv_data cfg w1 store0 tf st et now).2.1 :=
  fetch_and_save_store_noop cfg w2 _ tf st2 et2 now2
    (fetch_and_save_store_sorted cfg w1 store0 tf st et now h0) hnonew

/-- Witness for `backfill_idempotent_store`: a one-candle store, a first
run whose fetches all fail, and a second identical run; the persisted
series is unchanged. -/
theorem backfill_idempotent_store_inst :
    (fetch_and_save_ohlcv_data defaultConfig ⟨fun _ _ => none, fun _ => true⟩
        (fetch_and_save_ohlcv_data defaultConfig ⟨fun _ _ => none, fun _ => true⟩
          (some [⟨0, 1, 1, 1, 1, 1⟩]) "1h" 0 180 180).2.1 "1h" 0 180 180).2.1
      = (fetch_and_save_ohlcv_data defaultConfig ⟨fun _ _ => none, fun _ => true⟩
          (some [⟨0, 1, 1, 1, 1, 1⟩]) "1h" 0 180 180).2.1 :=
  backfill_idempotent_store defaultConfig
    ⟨fun _ _ => none, fun _ => true⟩ ⟨fun _ _ => none, fun _ => true⟩
    (some [⟨0, 1, 1, 1, 1, 1⟩]) "1h" 0 180 180 0 180 180
    (fun S hS => by cases hS; exact List.pairwise_singleton _ _)
    (fun r lim exg df h => Option.noConfusion h)
